import Mathlib

/-!
Verification of the hardware-control path of the iCue keyboard games
repository.  The definitions below are shallow embeddings of the Rust
functions in `src/openrgb/mod.rs`, `src/games/wordle.rs` and
`src/games/typing.rs`: byte buffers become `List Nat` (each entry < 256),
machine integers become `Nat`/`Int` with explicit two's-complement
conversion where signedness matters, fallible code returns
`Except String`.
-/

namespace ICueKb

/-! ### Cursor over a received payload (`src/openrgb/mod.rs`, `struct Cursor`)

`Cursor { buf, pos }` with the read primitives `read_u16`, `read_u32`,
`read_i32`, `read_string`, `skip`, all built on `read_bytes`.  A Rust
slice `&buf[pos..pos+len]` is `(buf.drop pos).take len`. -/

structure Cursor where
  buf : List Nat
  pos : Nat
deriving Repr, DecidableEq

/-- `Cursor::read_bytes`: fails when `pos + len` runs past the end of the
buffer, otherwise yields the `len`-byte slice and advances `pos`. -/
def Cursor.read_bytes (c : Cursor) (len : Nat) : Except String (List Nat × Cursor) :=
  if c.pos + len > c.buf.length then
    .error "OpenRGB packet parse error: unexpected end of buffer"
  else
    .ok ((c.buf.drop c.pos).take len, { c with pos := c.pos + len })

/-- `u16::from_le_bytes` on a 2-byte slice. -/
def leU16 (bytes : List Nat) : Nat :=
  bytes.getD 0 0 + 256 * bytes.getD 1 0

/-- `u32::from_le_bytes` on a 4-byte slice. -/
def leU32 (bytes : List Nat) : Nat :=
  bytes.getD 0 0 + 256 * bytes.getD 1 0 + 65536 * bytes.getD 2 0 + 16777216 * bytes.getD 3 0

/-- Two's-complement reading of a `u32` bit pattern as an `i32`. -/
def toSigned32 (n : Nat) : Int :=
  if n < 2 ^ 31 then (n : Int) else (n : Int) - 2 ^ 32

/-- `Cursor::read_u16`. -/
def Cursor.read_u16 (c : Cursor) : Except String (Nat × Cursor) := do
  let (bytes, c') ← c.read_bytes 2
  return (leU16 bytes, c')

/-- `Cursor::read_u32`. -/
def Cursor.read_u32 (c : Cursor) : Except String (Nat × Cursor) := do
  let (bytes, c') ← c.read_bytes 4
  return (leU32 bytes, c')

/-- `Cursor::read_i32`. -/
def Cursor.read_i32 (c : Cursor) : Except String (Int × Cursor) := do
  let (bytes, c') ← c.read_bytes 4
  return (toSigned32 (leU32 bytes), c')

/-- `Cursor::read_string`: a u16 length prefix followed by that many raw
bytes, truncated at the first NUL.  We keep the NUL-truncated raw bytes;
the source's lossy UTF-8 decoding of those bytes is not modelled (no
claim depends on it). -/
def Cursor.read_string (c : Cursor) : Except String (List Nat × Cursor) := do
  let (len, c') ← c.read_u16
  let (bytes, c'') ← c'.read_bytes len
  return (bytes.takeWhile (fun b => b ≠ 0), c'')

/-- `Cursor::skip`. -/
def Cursor.skip (c : Cursor) (len : Nat) : Except String Cursor := do
  let (_, c') ← c.read_bytes len
  return c'

/-! ### Packet framing (`send_packet` / `read_packet`) -/

/-- The fixed 4-byte magic tag `b"ORGB"`. -/
def PACKET_MAGIC : List Nat := [0x4F, 0x52, 0x47, 0x42]

/-- `u32::to_le_bytes`. -/
def toLe4 (n : Nat) : List Nat :=
  [n % 256, n / 256 % 256, n / 65536 % 256, n / 16777216 % 256]

/-- A received packet as `read_packet` returns it: the device index field
is parsed but discarded (`_device_idx` in the source). -/
structure Packet where
  packet_id : Nat
  payload : List Nat
deriving Repr, DecidableEq

/-- `send_packet`'s wire output:
`MAGIC || device_idx || packet_id || payload.len() || payload`,
all integers little-endian. -/
def encode_packet (device_idx packet_id : Nat) (payload : List Nat) : List Nat :=
  PACKET_MAGIC ++ toLe4 device_idx ++ toLe4 packet_id ++ toLe4 payload.length ++ payload

/-- `read_packet` applied to a byte sequence: read a 16-byte header
(`read_exact` fails when fewer bytes remain), validate the magic, read
exactly `payload_size` payload bytes (failing when fewer remain); bytes
past the payload stay on the stream and are ignored here. -/
def decode_packet (bytes : List Nat) : Except String Packet :=
  if bytes.length < 16 then
    .error "Failed to read OpenRGB packet header"
  else if bytes.take 4 ≠ PACKET_MAGIC then
    .error "OpenRGB packet magic mismatch"
  else
    let packet_id := leU32 ((bytes.drop 8).take 4)
    let payload_size := leU32 ((bytes.drop 12).take 4)
    if (bytes.drop 16).length < payload_size then
      .error "Failed to read OpenRGB packet payload"
    else
      .ok { packet_id := packet_id, payload := (bytes.drop 16).take payload_size }

/-! ### Protocol-version negotiation (`negotiate_protocol`)

The TCP stream is modelled by the list of outcomes of successive
`try_read_packet` calls: a received packet, a read timeout
(`Ok(None)`), or a hard read error. -/

def CLIENT_PROTOCOL_MAX : Nat := 5

def PACKET_ID_REQUEST_PROTOCOL_VERSION : Nat := 40

inductive ReadOutcome where
  | pkt (p : Packet)
  | timeout
  | fail (e : String)
deriving Repr, DecidableEq

/-- The `for _ in 0..3` loop of `negotiate_protocol`: a matching reply id
yields `min(server_version, CLIENT_PROTOCOL_MAX)`, a mismatched id is
discarded and consumes one attempt, a timeout breaks out, a read error
propagates, and an exhausted budget (or exhausted stream) falls through
to `Ok(0)`. -/
def negotiateGo : Nat → List ReadOutcome → Except String Nat
  | 0, _ => .ok 0
  | _ + 1, [] => .ok 0
  | k + 1, r :: rest =>
    match r with
    | .fail e => .error e
    | .timeout => .ok 0
    | .pkt p =>
      if p.packet_id = PACKET_ID_REQUEST_PROTOCOL_VERSION then
        match (Cursor.mk p.payload 0).read_u32 with
        | .error e => .error e
        | .ok (server_version, _) => .ok (min server_version CLIENT_PROTOCOL_MAX)
      else
        negotiateGo k rest

/-- `negotiate_protocol`, given the stream's read outcomes. -/
def negotiate_protocol (reads : List ReadOutcome) : Except String Nat :=
  negotiateGo 3 reads

/-! ### LED frame buffer (`Keyboard::set_leds`, `rgb_to_u32`) -/

structure LedColor where
  id : Nat
  r : Nat
  g : Nat
  b : Nat
deriving Repr, DecidableEq

/-- `rgb_to_u32`: `(b << 16) | (g << 8) | r`. -/
def rgb_to_u32 (r g b : Nat) : Nat :=
  (b <<< 16) ||| (g <<< 8) ||| r

/-- The frame buffer `Keyboard::set_leds` transmits for a buffer of
length `n`: `self.led_buffer.fill(0)`, then each entry whose `id` is in
range is written at its hardware index; out-of-range entries are
silently skipped. -/
def set_leds_buffer (n : Nat) (leds : List LedColor) : List Nat :=
  leds.foldl
    (fun buf led =>
      if led.id < n then buf.set led.id (rgb_to_u32 led.r led.g led.b) else buf)
    (List.replicate n 0)

/-! ### Key-map construction (`extract_char`, `build_led_map`, `led_for_char`)

Rust `String`s become `List Char`; `str::len` is the UTF-8 byte length
`utf8Len`.  `char::is_ascii_alphanumeric` and `char::to_ascii_uppercase`
match Lean's ASCII-only `Char.isAlphanum` / `Char.toUpper`; `str::trim`
is modelled with `Char.isWhitespace` (the LED-name strings involved are
ASCII). -/

def isAsciiAlnum (c : Char) : Bool :=
  ('A' ≤ c && c ≤ 'Z') || ('a' ≤ c && c ≤ 'z') || ('0' ≤ c && c ≤ '9')

/-- `str::trim`: whitespace removed from both ends. -/
def trimChars (s : List Char) : List Char :=
  ((s.dropWhile Char.isWhitespace).reverse.dropWhile Char.isWhitespace).reverse

/-- `str::contains(sub)`: substring test. -/
def containsSub (sub : List Char) : List Char → Bool
  | [] => sub.isEmpty
  | c :: rest => List.isPrefixOf sub (c :: rest) || containsSub sub rest

/-- `str::strip_prefix`. -/
def dropPrefixOpt (pre s : List Char) : Option (List Char) :=
  if List.isPrefixOf pre s then some (s.drop pre.length) else none

/-- `str::split(|c| !c.is_ascii_alphanumeric())`: every non-alphanumeric
character is a separator; empty segments are kept, as in Rust. -/
def splitNonAlnum : List Char → List (List Char)
  | [] => [[]]
  | c :: rest =>
    match splitNonAlnum rest with
    | [] => [[]]
    | t :: ts => if isAsciiAlnum c then (c :: t) :: ts else [] :: t :: ts

/-- UTF-8 byte length of a string (`str::len`). -/
def utf8Len (s : List Char) : Nat :=
  (s.map Char.utf8Size).sum

/-- One iteration of the token loop at the end of `extract_char`: a token
of byte-length 1 (hence a single one-byte character) that is
ASCII-alphanumeric is returned, any other token is skipped. -/
def tokenChar (token : List Char) : Option Char :=
  if utf8Len token = 1 then
    match token with
    | [ch] => if isAsciiAlnum ch then some ch else none
    | _ => none
  else none

/-- The token scan at the end of `extract_char`: the first token of
byte-length 1 whose character is ASCII-alphanumeric. -/
def findToken : List (List Char) → Option Char
  | [] => none
  | token :: rest =>
    match tokenChar token with
    | some ch => some ch
    | none => findToken rest

/-- `extract_char`: trim and ASCII-uppercase the name; any name containing
`"SPACE"` maps to the space character; a `"KEY:"` or `"KEY"` marker is
stripped (and the rest re-trimmed); then the first single-byte
alphanumeric token is the extracted character. -/
def extract_char (name : List Char) : Option Char :=
  let value := (trimChars name).map Char.toUpper
  if containsSub ("SPACE".toList) value then some ' '
  else
    let value2 :=
      match dropPrefixOpt ("KEY:".toList) value with
      | some stripped => trimChars stripped
      | none =>
        match dropPrefixOpt ("KEY".toList) value with
        | some stripped => trimChars stripped
        | none => value
    findToken (splitNonAlnum value2)

/-- `HashMap<char, u32>` modelled as a first-match association list. -/
def alookup : List (Char × Nat) → Char → Option Nat
  | [], _ => none
  | (k, v) :: rest, c => if c = k then some v else alookup rest c

/-- `map.entry(ch).or_insert(idx)`: insert only when the key is absent. -/
def orInsert (m : List (Char × Nat)) (k : Char) (v : Nat) : List (Char × Nat) :=
  match alookup m k with
  | some _ => m
  | none => (k, v) :: m

/-- One loop iteration of `build_led_map` at `(idx, name)`:
`or_insert` the extracted character, skip names yielding none. -/
def ledMapStep (m : List (Char × Nat)) (p : Nat × List Char) : List (Char × Nat) :=
  match extract_char p.2 with
  | some ch => orInsert m ch p.1
  | none => m

/-- One enumeration pass of `build_led_map`. -/
def ledMapPass (m : List (Char × Nat)) (named : List (Nat × List Char)) :
    List (Char × Nat) :=
  named.foldl ledMapStep m

/-- `build_led_map`: scan the alt names first (the loop breaks as soon as
`idx >= led_names.len()`, so only the first `led_names.length` alt names
are scanned), then the primary names; each scan only fills characters not
already mapped. -/
def build_led_map (led_names led_alt_names : List (List Char)) :
    List (Char × Nat) :=
  ledMapPass (ledMapPass [] (led_alt_names.take led_names.length).enum)
    led_names.enum

/-- `Keyboard::led_for_char`: uppercase the query, then look it up. -/
def led_for_char (led_map : List (Char × Nat)) (ch : Char) : Option Nat :=
  alookup led_map ch.toUpper

/-! ### Wordle (`src/games/wordle.rs`) -/

inductive LetterState where
  | Correct
  | Present
  | Absent
deriving Repr, DecidableEq

structure Rgb where
  r : Nat
  g : Nat
  b : Nat
deriving Repr, DecidableEq

/-- The per-state colors written by `apply_attempt_colors`. -/
def stateColor : LetterState → Rgb
  | .Correct => ⟨0, 255, 0⟩
  | .Present => ⟨255, 215, 0⟩
  | .Absent => ⟨255, 0, 0⟩

/-- `priority` (wordle): green 3, gold 2, red 1, everything else 0. -/
def priority (color : Rgb) : Nat :=
  if color = ⟨0, 255, 0⟩ then 3
  else if color = ⟨255, 215, 0⟩ then 2
  else if color = ⟨255, 0, 0⟩ then 1
  else 0

/-- `HashMap<u32, Rgb>` as a first-match association list. -/
def rlookup : List (Nat × Rgb) → Nat → Option Rgb
  | [], _ => none
  | (k, v) :: rest, c => if c = k then some v else rlookup rest c

/-- `HashMap::insert`: replaces any existing binding. -/
def rinsert (m : List (Nat × Rgb)) (k : Nat) (v : Rgb) : List (Nat × Rgb) :=
  (k, v) :: m.filter (fun p => p.1 ≠ k)

/-- The merge step of `apply_attempt_colors`:
`map.entry(id).or_insert(color)` followed by overwriting only when the
incoming color's priority is strictly higher. -/
def mergeColor (m : List (Nat × Rgb)) (id : Nat) (color : Rgb) :
    List (Nat × Rgb) :=
  match rlookup m id with
  | none => rinsert m id color
  | some entry => if priority color > priority entry then rinsert m id color else m

/-- `apply_attempt_colors`: the attempt is the list of
(guess character, letter state) pairs; characters with no LED entry are
skipped. -/
def apply_attempt_colors (ledFor : Char → Option Nat)
    (attempt : List (Char × LetterState)) (m : List (Nat × Rgb)) :
    List (Nat × Rgb) :=
  attempt.foldl
    (fun m p =>
      match ledFor p.1 with
      | some id => mergeColor m id (stateColor p.2)
      | none => m)
    m

/-! ### `evaluate_guess` (wordle)

The source's three index loops are rendered as structural walks:
the first loop marks position `i < min_len` `Correct` exactly when the
characters agree, and together with the second loop counts every secret
character at a non-`Correct` position into the `remaining` multiset
(`HashMap<char, usize>`, modelled as a function with default 0); the
third loop walks the guess in order, upgrading non-`Correct` positions
to `Present` while the guessed character's remaining count is positive. -/

/-- `*remaining.entry(c).or_insert(0) += 1`. -/
def bump (m : Char → Nat) (c : Char) : Char → Nat :=
  fun x => if x = c then m x + 1 else m x

/-- `*count -= 1` at key `c`. -/
def decAt (m : Char → Nat) (c : Char) : Char → Nat :=
  fun x => if x = c then m x - 1 else m x

/-- First loop of `evaluate_guess` (`secret`, `guess`): position `i` is
`Correct` when `i < min_len` and the characters agree, else `Absent`;
one state per guess character. -/
def states1 : List Char → List Char → List LetterState
  | _, [] => []
  | [], _ :: gs => .Absent :: states1 [] gs
  | s :: ss, g :: gs => (if g = s then .Correct else .Absent) :: states1 ss gs

/-- The `remaining` map after the first two loops: every secret character
at a position that is not an exact match is counted. -/
def remaining1 : List Char → List Char → Char → Nat
  | [], _ => fun _ => 0
  | s :: ss, [] => bump (remaining1 ss []) s
  | s :: ss, g :: gs =>
    if g = s then remaining1 ss gs else bump (remaining1 ss gs) s

/-- Third loop of `evaluate_guess` over (guess character, state) pairs. -/
def pass2 : List (Char × LetterState) → (Char → Nat) → List LetterState
  | [], _ => []
  | (ch, st) :: rest, remaining =>
    if st = .Correct then st :: pass2 rest remaining
    else if remaining ch > 0 then .Present :: pass2 rest (decAt remaining ch)
    else st :: pass2 rest remaining

/-- `evaluate_guess secret guess`. -/
def evaluate_guess (secret guess : List Char) : List LetterState :=
  pass2 (guess.zip (states1 secret guess)) (remaining1 secret guess)

/-! ## Theorems -/

/-! ### C1: frame buffer invariant of `set_leds` -/

lemma set_leds_foldl_getElem (n : Nat) (leds : List LedColor) (buf : List Nat) (i : Nat)
    (h : ∀ led ∈ leds, led.id ≠ i) :
    (leds.foldl
      (fun buf led =>
        if led.id < n then buf.set led.id (rgb_to_u32 led.r led.g led.b) else buf)
      buf)[i]? = buf[i]? := by
  induction leds generalizing buf with
  | nil => rfl
  | cons led rest ih =>
    have hne : led.id ≠ i := h led (by simp)
    have hrest : ∀ l ∈ rest, l.id ≠ i := fun l hl => h l (by simp [hl])
    simp only [List.foldl_cons]
    rw [ih _ hrest]
    split
    · exact List.getElem?_set_ne hne
    · rfl

lemma set_leds_foldl_filter (n : Nat) (leds : List LedColor) (buf : List Nat) :
    (leds.filter (fun led => led.id < n)).foldl
        (fun buf led =>
          if led.id < n then buf.set led.id (rgb_to_u32 led.r led.g led.b) else buf)
        buf
      = leds.foldl
        (fun buf led =>
          if led.id < n then buf.set led.id (rgb_to_u32 led.r led.g led.b) else buf)
        buf := by
  induction leds generalizing buf with
  | nil => rfl
  | cons led rest ih =>
    by_cases hid : led.id < n
    · rw [List.filter_cons_of_pos (by simpa using hid)]
      simp only [List.foldl_cons, if_pos hid]
      exact ih _
    · rw [List.filter_cons_of_neg (by simpa using hid)]
      simp only [List.foldl_cons, if_neg hid]
      exact ih _

/-- C1: after any `set_leds` call, every hardware LED index of the frame
buffer that no caller-supplied entry targets holds zero (off); the empty
list turns every LED off; entries with an out-of-range index are dropped
without any effect (removing them from the input does not change the
transmitted buffer, and `set_leds` has no error path for them). -/
theorem set_leds_frame_invariant :
    (∀ n leds i, i < n → (∀ led ∈ leds, led.id ≠ i) →
      (set_leds_buffer n leds)[i]? = some 0)
    ∧ (∀ n, set_leds_buffer n [] = List.replicate n 0)
    ∧ (∀ n leds,
        set_leds_buffer n (leds.filter (fun led => led.id < n)) =
          set_leds_buffer n leds) := by
  refine ⟨fun n leds i hi h => ?_, fun n => rfl, fun n leds => set_leds_foldl_filter n leds _⟩
  rw [set_leds_buffer, set_leds_foldl_getElem n leds _ i h]
  rw [List.getElem?_eq_getElem (by simpa using hi)]
  simp

/-- Witness for C1 at a concrete input. -/
theorem set_leds_frame_invariant_witness :
    (set_leds_buffer 2 [⟨1, 9, 9, 9⟩])[0]? = some 0
    ∧ set_leds_buffer 2 (([⟨1, 9, 9, 9⟩, ⟨7, 1, 2, 3⟩] : List LedColor).filter
        (fun led => led.id < 2)) = set_leds_buffer 2 [⟨1, 9, 9, 9⟩, ⟨7, 1, 2, 3⟩] :=
  ⟨set_leds_frame_invariant.1 2 [⟨1, 9, 9, 9⟩] 0 (by decide)
      (by intro led hled; simp at hled; simp [hled]),
    set_leds_frame_invariant.2.2 2 [⟨1, 9, 9, 9⟩, ⟨7, 1, 2, 3⟩]⟩

/-! ### C6: cursor read primitives never overrun and advance exactly -/

lemma read_bytes_ok (c : Cursor) (len : Nat) (h : c.pos + len ≤ c.buf.length) :
    c.read_bytes len = .ok ((c.buf.drop c.pos).take len, ⟨c.buf, c.pos + len⟩) := by
  rw [Cursor.read_bytes, if_neg (by omega)]

lemma read_bytes_err (c : Cursor) (len : Nat) (h : c.buf.length < c.pos + len) :
    c.read_bytes len =
      .error "OpenRGB packet parse error: unexpected end of buffer" := by
  rw [Cursor.read_bytes, if_pos (by omega)]

lemma read_bytes_len (c : Cursor) (len : Nat) (h : c.pos + len ≤ c.buf.length) :
    ((c.buf.drop c.pos).take len).length = len := by
  simp only [List.length_take, List.length_drop]
  omega

lemma read_string_ok (c : Cursor) (h2 : c.pos + 2 ≤ c.buf.length)
    (hlen : c.pos + 2 + leU16 ((c.buf.drop c.pos).take 2) ≤ c.buf.length) :
    c.read_string =
      .ok (((c.buf.drop (c.pos + 2)).take
              (leU16 ((c.buf.drop c.pos).take 2))).takeWhile (fun b => b ≠ 0),
        ⟨c.buf, c.pos + 2 + leU16 ((c.buf.drop c.pos).take 2)⟩) := by
  rw [Cursor.read_string, Cursor.read_u16, read_bytes_ok c 2 h2]
  show (Cursor.mk c.buf (c.pos + 2)).read_bytes _ >>= _ = _
  rw [read_bytes_ok ⟨c.buf, c.pos + 2⟩ _ (by simpa using hlen)]
  rfl

lemma read_string_err (c : Cursor) (h2 : c.pos + 2 ≤ c.buf.length)
    (hlen : c.buf.length < c.pos + 2 + leU16 ((c.buf.drop c.pos).take 2)) :
    c.read_string =
      .error "OpenRGB packet parse error: unexpected end of buffer" := by
  rw [Cursor.read_string, Cursor.read_u16, read_bytes_ok c 2 h2]
  show (Cursor.mk c.buf (c.pos + 2)).read_bytes _ >>= _ = _
  rw [read_bytes_err ⟨c.buf, c.pos + 2⟩ _ (by simpa using hlen)]
  rfl

/-- C6: every cursor read primitive (`read_u16`, `read_u32`, `read_i32`,
`read_string`, `skip`, and the underlying `read_bytes`) fails whenever
the requested bytes would extend past the end of the buffer, and on
success returns a full-length slice from within the buffer with the
cursor advanced by exactly the number of bytes consumed (2, 4, 4,
`2 + len` where `len` is the u16 length prefix, and the requested count,
respectively). -/
theorem cursor_reads_bounded :
    (∀ (c : Cursor) (len : Nat),
      (c.pos + len ≤ c.buf.length →
        c.read_bytes len = .ok ((c.buf.drop c.pos).take len, ⟨c.buf, c.pos + len⟩)
        ∧ ((c.buf.drop c.pos).take len).length = len)
      ∧ (c.buf.length < c.pos + len → ∃ e, c.read_bytes len = .error e))
    ∧ (∀ c : Cursor,
      (c.pos + 2 ≤ c.buf.length → ∃ v, c.read_u16 = .ok (v, ⟨c.buf, c.pos + 2⟩))
      ∧ (c.buf.length < c.pos + 2 → ∃ e, c.read_u16 = .error e))
    ∧ (∀ c : Cursor,
      (c.pos + 4 ≤ c.buf.length → ∃ v, c.read_u32 = .ok (v, ⟨c.buf, c.pos + 4⟩))
      ∧ (c.buf.length < c.pos + 4 → ∃ e, c.read_u32 = .error e))
    ∧ (∀ c : Cursor,
      (c.pos + 4 ≤ c.buf.length → ∃ v, c.read_i32 = .ok (v, ⟨c.buf, c.pos + 4⟩))
      ∧ (c.buf.length < c.pos + 4 → ∃ e, c.read_i32 = .error e))
    ∧ (∀ (c : Cursor) (len : Nat),
      (c.pos + len ≤ c.buf.length → c.skip len = .ok ⟨c.buf, c.pos + len⟩)
      ∧ (c.buf.length < c.pos + len → ∃ e, c.skip len = .error e))
    ∧ (∀ c : Cursor,
      (c.pos + 2 ≤ c.buf.length →
        c.pos + 2 + leU16 ((c.buf.drop c.pos).take 2) ≤ c.buf.length →
        ∃ s, c.read_string =
          .ok (s, ⟨c.buf, c.pos + 2 + leU16 ((c.buf.drop c.pos).take 2)⟩))
      ∧ (c.buf.length < c.pos + 2 → ∃ e, c.read_string = .error e)
      ∧ (c.pos + 2 ≤ c.buf.length →
        c.buf.length < c.pos + 2 + leU16 ((c.buf.drop c.pos).take 2) →
        ∃ e, c.read_string = .error e)) := by
  refine ⟨fun c len => ⟨fun h => ⟨read_bytes_ok c len h, read_bytes_len c len h⟩,
      fun h => ⟨_, read_bytes_err c len h⟩⟩, ?_, ?_, ?_, ?_, ?_⟩
  · exact fun c =>
      ⟨fun h => ⟨_, by rw [Cursor.read_u16, read_bytes_ok c 2 h]; rfl⟩,
       fun h => ⟨_, by rw [Cursor.read_u16, read_bytes_err c 2 h]; rfl⟩⟩
  · exact fun c =>
      ⟨fun h => ⟨_, by rw [Cursor.read_u32, read_bytes_ok c 4 h]; rfl⟩,
       fun h => ⟨_, by rw [Cursor.read_u32, read_bytes_err c 4 h]; rfl⟩⟩
  · exact fun c =>
      ⟨fun h => ⟨_, by rw [Cursor.read_i32, read_bytes_ok c 4 h]; rfl⟩,
       fun h => ⟨_, by rw [Cursor.read_i32, read_bytes_err c 4 h]; rfl⟩⟩
  · exact fun c len =>
      ⟨fun h => by rw [Cursor.skip, read_bytes_ok c len h]; rfl,
       fun h => ⟨_, by rw [Cursor.skip, read_bytes_err c len h]; rfl⟩⟩
  · exact fun c =>
      ⟨fun h2 hlen => ⟨_, read_string_ok c h2 hlen⟩,
       fun h2 => ⟨_, by rw [Cursor.read_string, Cursor.read_u16, read_bytes_err c 2 h2]; rfl⟩,
       fun h2 hlen => ⟨_, read_string_err c h2 hlen⟩⟩

/-- Witness for C6 at concrete cursors. -/
theorem cursor_reads_bounded_witness :
    (Cursor.mk [1, 2, 3] 0).read_bytes 2 = .ok ([1, 2], ⟨[1, 2, 3], 2⟩)
    ∧ (∃ e, (Cursor.mk [1, 2, 3] 2).read_u16 = .error e)
    ∧ (∃ s, (Cursor.mk [2, 0, 65, 66] 0).read_string = .ok (s, ⟨[2, 0, 65, 66], 4⟩)) :=
  ⟨((cursor_reads_bounded.1 ⟨[1, 2, 3], 0⟩ 2).1 (by decide)).1,
   (cursor_reads_bounded.2.1 ⟨[1, 2, 3], 2⟩).2 (by decide),
   (cursor_reads_bounded.2.2.2.2.2 ⟨[2, 0, 65, 66], 0⟩).1 (by decide) (by decide)⟩

/-! ### C7: packet wire form and round-trip -/

lemma leU32_toLe4 (n : Nat) (h : n < 4294967296) : leU32 (toLe4 n) = n := by
  simp [leU32, toLe4]
  omega

lemma decode_encode (d p : Nat) (payload : List Nat) (hp : p < 4294967296)
    (hlen : payload.length < 4294967296) :
    decode_packet (encode_packet d p payload) = .ok ⟨p, payload⟩ := by
  have e : encode_packet d p payload =
      [79, 82, 71, 66, d % 256, d / 256 % 256, d / 65536 % 256, d / 16777216 % 256,
       p % 256, p / 256 % 256, p / 65536 % 256, p / 16777216 % 256,
       payload.length % 256, payload.length / 256 % 256, payload.length / 65536 % 256,
       payload.length / 16777216 % 256] ++ payload := by
    simp [encode_packet, PACKET_MAGIC, toLe4]
  rw [e, decode_packet]
  rw [if_neg (by simp)]
  rw [if_neg (by simp [PACKET_MAGIC])]
  have hdrop : ([79, 82, 71, 66, d % 256, d / 256 % 256, d / 65536 % 256, d / 16777216 % 256,
       p % 256, p / 256 % 256, p / 65536 % 256, p / 16777216 % 256,
       payload.length % 256, payload.length / 256 % 256, payload.length / 65536 % 256,
       payload.length / 16777216 % 256] ++ payload).drop 16 = payload := by simp
  have hid : leU32 ((([79, 82, 71, 66, d % 256, d / 256 % 256, d / 65536 % 256, d / 16777216 % 256,
       p % 256, p / 256 % 256, p / 65536 % 256, p / 16777216 % 256,
       payload.length % 256, payload.length / 256 % 256, payload.length / 65536 % 256,
       payload.length / 16777216 % 256] ++ payload).drop 8).take 4) = p := by
    simp [leU32]
    omega
  have hsz : leU32 ((([79, 82, 71, 66, d % 256, d / 256 % 256, d / 65536 % 256, d / 16777216 % 256,
       p % 256, p / 256 % 256, p / 65536 % 256, p / 16777216 % 256,
       payload.length % 256, payload.length / 256 % 256, payload.length / 65536 % 256,
       payload.length / 16777216 % 256] ++ payload).drop 12).take 4) = payload.length := by
    simp [leU32]
    omega
  simp only [hdrop, hid, hsz]
  rw [if_neg (by omega)]
  simp

/-- C7: for every well-formed packet byte sequence (valid magic,
little-endian device index, packet id and payload length, followed by
exactly that many payload bytes — i.e. the output of `send_packet`),
decoding succeeds and re-encoding with the same device index reproduces
the original bytes; and encoding always produces
`MAGIC || device_index || packet_id || payload_length || payload`, all
integers little-endian. -/
theorem packet_roundtrip :
    ∀ (d p : Nat) (payload : List Nat),
      d < 4294967296 → p < 4294967296 → payload.length < 4294967296 →
      decode_packet (encode_packet d p payload) = .ok ⟨p, payload⟩
      ∧ (∀ pkt, decode_packet (encode_packet d p payload) = .ok pkt →
          encode_packet d pkt.packet_id pkt.payload = encode_packet d p payload)
      ∧ encode_packet d p payload =
          PACKET_MAGIC ++ toLe4 d ++ toLe4 p ++ toLe4 payload.length ++ payload := by
  intro d p payload hd hp hlen
  refine ⟨decode_encode d p payload hp hlen, fun pkt hpkt => ?_, rfl⟩
  rw [decode_encode d p payload hp hlen] at hpkt
  injection hpkt with h
  rw [← h]

/-- Witness for C7 at a concrete packet. -/
theorem packet_roundtrip_witness :
    decode_packet (encode_packet 1 40 [7, 8]) = .ok ⟨40, [7, 8]⟩ :=
  (packet_roundtrip 1 40 [7, 8] (by decide) (by decide) (by decide)).1

/-! ### C5: protocol-version negotiation -/

lemma negotiateGo_take (k : Nat) (reads : List ReadOutcome) :
    negotiateGo k reads = negotiateGo k (reads.take k) := by
  induction k generalizing reads with
  | zero => rfl
  | succ k ih =>
    cases reads with
    | nil => rfl
    | cons r rest =>
      cases r with
      | pkt p =>
        simp only [List.take_succ_cons, negotiateGo]
        by_cases h : p.packet_id = PACKET_ID_REQUEST_PROTOCOL_VERSION
        · simp [h]
        · simp [h, ih rest]
      | timeout => rfl
      | fail e => rfl

lemma negotiateGo_skip (k : Nat) (reads : List ReadOutcome)
    (h : ∀ r ∈ reads.take k,
      ∃ p, r = .pkt p ∧ p.packet_id ≠ PACKET_ID_REQUEST_PROTOCOL_VERSION) :
    negotiateGo k reads = .ok 0 := by
  induction k generalizing reads with
  | zero => rfl
  | succ k ih =>
    cases reads with
    | nil => rfl
    | cons r rest =>
      obtain ⟨p, rfl, hp⟩ := h r (by simp)
      simp only [negotiateGo, if_neg hp]
      exact ih rest
        (fun r hr => h r (by rw [List.take_succ_cons]; exact List.mem_cons_of_mem _ hr))

lemma negotiateGo_timeout :
    ∀ (rs : List ReadOutcome) (k : Nat) (rest : List ReadOutcome),
      (∀ r ∈ rs, ∃ p, r = .pkt p ∧ p.packet_id ≠ PACKET_ID_REQUEST_PROTOCOL_VERSION) →
      negotiateGo k (rs ++ .timeout :: rest) = .ok 0 := by
  intro rs
  induction rs with
  | nil =>
    intro k rest _
    cases k <;> rfl
  | cons r rs ih =>
    intro k rest h
    obtain ⟨p, rfl, hp⟩ := h r (by simp)
    cases k with
    | zero => rfl
    | succ k =>
      simp only [List.cons_append, negotiateGo, if_neg hp]
      exact ih k rest (fun r hr => h r (by simp [hr]))

lemma negotiateGo_match :
    ∀ (rs : List ReadOutcome) (k : Nat) (p : Packet) (rest : List ReadOutcome)
      (v : Nat) (c' : Cursor),
      rs.length < k →
      (∀ r ∈ rs, ∃ q, r = .pkt q ∧ q.packet_id ≠ PACKET_ID_REQUEST_PROTOCOL_VERSION) →
      p.packet_id = PACKET_ID_REQUEST_PROTOCOL_VERSION →
      (Cursor.mk p.payload 0).read_u32 = .ok (v, c') →
      negotiateGo k (rs ++ .pkt p :: rest) = .ok (min v CLIENT_PROTOCOL_MAX) := by
  intro rs
  induction rs with
  | nil =>
    intro k p rest v c' hk h hid hread
    cases k with
    | zero => omega
    | succ k =>
      simp only [List.nil_append, negotiateGo, if_pos hid, hread]
  | cons r rs ih =>
    intro k p rest v c' hk h hid hread
    obtain ⟨q, rfl, hq⟩ := h r (by simp)
    cases k with
    | zero => omega
    | succ k =>
      simp only [List.cons_append, negotiateGo, if_neg hq]
      exact ih k p rest v c' (by simp at hk; omega)
        (fun r hr => h r (by simp [hr])) hid hread

/-- C5: during protocol-version negotiation, only the first three read
outcomes matter (at most three reads are attempted); packets whose id is
not the protocol-version request id (40) are discarded without error;
if no matching reply arrives within the budget — all attempts yield
mismatched packets, or a read times out first — the negotiation returns
version 0 as a success; and when a matching reply does arrive within the
budget, the negotiated version is
`min(server_version, CLIENT_PROTOCOL_MAX)`. -/
theorem negotiate_protocol_spec :
    (∀ reads, negotiate_protocol reads = negotiate_protocol (reads.take 3))
    ∧ (∀ reads,
        (∀ r ∈ reads.take 3,
          ∃ p, r = .pkt p ∧ p.packet_id ≠ PACKET_ID_REQUEST_PROTOCOL_VERSION) →
        negotiate_protocol reads = .ok 0)
    ∧ (∀ rs rest,
        (∀ r ∈ rs,
          ∃ p, r = .pkt p ∧ p.packet_id ≠ PACKET_ID_REQUEST_PROTOCOL_VERSION) →
        negotiate_protocol (rs ++ .timeout :: rest) = .ok 0)
    ∧ (∀ rs p rest v c', rs.length < 3 →
        (∀ r ∈ rs,
          ∃ q, r = .pkt q ∧ q.packet_id ≠ PACKET_ID_REQUEST_PROTOCOL_VERSION) →
        p.packet_id = PACKET_ID_REQUEST_PROTOCOL_VERSION →
        (Cursor.mk p.payload 0).read_u32 = .ok (v, c') →
        negotiate_protocol (rs ++ .pkt p :: rest) =
          .ok (min v CLIENT_PROTOCOL_MAX)) := by
  refine ⟨fun reads => ?_, fun reads h => negotiateGo_skip 3 reads h,
    fun rs rest h => negotiateGo_timeout rs 3 rest h,
    fun rs p rest v c' hk h hid hread => negotiateGo_match rs 3 p rest v c' hk h hid hread⟩
  · rw [negotiate_protocol, negotiate_protocol]
    exact negotiateGo_take 3 reads

/-- Witness for C5 at concrete read streams. -/
theorem negotiate_protocol_spec_witness :
    negotiate_protocol [.pkt ⟨10, []⟩, .pkt ⟨11, []⟩, .pkt ⟨12, []⟩, .pkt ⟨40, [7, 0, 0, 0]⟩]
        = .ok 0
    ∧ negotiate_protocol [.pkt ⟨10, []⟩, .pkt ⟨40, [7, 0, 0, 0]⟩] = .ok 5
    ∧ negotiate_protocol [.pkt ⟨10, []⟩, .timeout, .fail "boom"] = .ok 0 := by
  refine ⟨negotiate_protocol_spec.2.1 _ ?_, ?_, ?_⟩
  · intro r hr
    fin_cases hr <;> exact ⟨_, rfl, by decide⟩
  · have h := negotiate_protocol_spec.2.2.2 [.pkt ⟨10, []⟩] ⟨40, [7, 0, 0, 0]⟩ []
      7 ⟨[7, 0, 0, 0], 4⟩ (by decide)
      (by intro r hr; fin_cases hr; exact ⟨_, rfl, by decide⟩) rfl rfl
    simpa using h
  · exact negotiate_protocol_spec.2.2.1 [.pkt ⟨10, []⟩] [.fail "boom"]
      (by intro r hr; fin_cases hr; exact ⟨_, rfl, by decide⟩)

/-! ### C3: first-association-wins key-map construction -/

lemma alookup_orInsert (m : List (Char × Nat)) (k : Char) (v : Nat) (c : Char) :
    alookup (orInsert m k v) c =
      match alookup m c with
      | some w => some w
      | none => if c = k then some v else none := by
  unfold orInsert
  cases hk : alookup m k with
  | some w =>
    cases hc : alookup m c with
    | some w' => simp [hc]
    | none =>
      by_cases hck : c = k
      · subst hck; rw [hk] at hc; cases hc
      · simp [hc, hck]
  | none =>
    simp only [alookup]
    by_cases hck : c = k
    · subst hck; simp [hk]
    · simp only [if_neg hck]
      cases alookup m c <;> simp

lemma alookup_ledMapPass (l : List (Nat × List Char)) (m : List (Char × Nat)) (c : Char) :
    alookup (ledMapPass m l) c =
      match alookup m c with
      | some v => some v
      | none => (l.find? (fun p => extract_char p.2 == some c)).map Prod.fst := by
  induction l generalizing m with
  | nil =>
    cases h : alookup m c <;> simp [ledMapPass, h]
  | cons p rest ih =>
    have hcons : ledMapPass m (p :: rest) = ledMapPass (ledMapStep m p) rest := rfl
    rw [hcons, ih]
    cases hec : extract_char p.2 with
    | none =>
      have hstep : ledMapStep m p = m := by rw [ledMapStep, hec]
      rw [hstep]
      have hfind : ((p :: rest).find? (fun q => extract_char q.2 == some c)) =
          rest.find? (fun q => extract_char q.2 == some c) := by
        rw [List.find?_cons_of_neg]
        simp [hec]
      rw [hfind]
    | some ch =>
      have hstep : ledMapStep m p = orInsert m ch p.1 := by rw [ledMapStep, hec]
      rw [hstep, alookup_orInsert]
      by_cases hcc : ch = c
      · subst hcc
        have hfind : ((p :: rest).find? (fun q => extract_char q.2 == some ch)) = some p := by
          rw [List.find?_cons_of_pos]
          simp [hec]
        rw [hfind]
        cases alookup m ch <;> simp
      · have hfind : ((p :: rest).find? (fun q => extract_char q.2 == some c)) =
            rest.find? (fun q => extract_char q.2 == some c) := by
          rw [List.find?_cons_of_neg]
          simp [hec, hcc]
        rw [hfind]
        cases alookup m c with
        | some w => rfl
        | none => simp [Ne.symm hcc]

/-- Counterexample to C3 as stated: the claim quantifies over every pair
of name lists, but the alt-name loop breaks as soon as
`idx >= led_names.len()`, so with an empty primary list and the alt name
`"Key: A"` (which extracts the character `A` at scan position 0, hence
the claim predicts `A ↦ 0`) the constructed map is empty. -/
theorem build_led_map_alt_overflow_cex :
    extract_char ("Key: A".toList) = some 'A'
    ∧ build_led_map [] [("Key: A".toList)] = []
    ∧ alookup (build_led_map [] [("Key: A".toList)]) 'A' ≠ some 0 := by decide

/-- C3 (amended): alt-names are scanned before primary names, but only
the first `led_names.length` alt entries are scanned (the loop breaks at
the primary list's length); within that scan order, once a character has
been assigned an index, later names yielding the same character never
overwrite it: the map assigns each character the hardware index of the
first name, in truncated-alt-then-primary scan order, whose extracted
character is that character. -/
theorem build_led_map_first_wins :
    ∀ (led_names led_alt_names : List (List Char)) (c : Char),
      alookup (build_led_map led_names led_alt_names) c =
        (((led_alt_names.take led_names.length).enum ++ led_names.enum).find?
            (fun p => extract_char p.2 == some c)).map Prod.fst := by
  intro names alts c
  rw [build_led_map, alookup_ledMapPass, alookup_ledMapPass]
  simp only [alookup]
  rw [List.find?_append]
  cases (alts.take names.length).enum.find? (fun p => extract_char p.2 == some c) with
  | none => simp
  | some q => simp

/-! ### C4: the concrete key-map example -/

/-- C4: for LED names `["Key: A", "KEY B", "space bar", "Key1"]` at
positions 0–3 and no alt-names, the key map is exactly
`{A ↦ 0, B ↦ 1, ' ' ↦ 2, '1' ↦ 3}` (and nothing else); appending a later
duplicate name that resolves to an already-mapped character leaves that
character's index unchanged. -/
theorem key_map_example :
    (∀ c : Char,
      alookup (build_led_map
          [("Key: A".toList), ("KEY B".toList), ("space bar".toList), ("Key1".toList)] []) c
        = (if c = 'A' then some 0 else if c = 'B' then some 1
           else if c = ' ' then some 2 else if c = '1' then some 3 else none))
    ∧ alookup (build_led_map
        [("Key: A".toList), ("KEY B".toList), ("space bar".toList), ("Key1".toList),
         ("KEY A".toList)] []) 'A' = some 0 := by
  constructor
  · intro c
    have h : build_led_map
        [("Key: A".toList), ("KEY B".toList), ("space bar".toList), ("Key1".toList)] []
        = [('1', 3), (' ', 2), ('B', 1), ('A', 0)] := by decide
    rw [h]
    by_cases h1 : c = 'A'
    · subst h1; decide
    by_cases h2 : c = 'B'
    · subst h2; decide
    by_cases h3 : c = ' '
    · subst h3; decide
    by_cases h4 : c = '1'
    · subst h4; decide
    simp [alookup, h1, h2, h3, h4]
  · decide

/-! ### C2: priority merge of same-key requests in one frame -/

lemma rlookup_rinsert_self (m : List (Nat × Rgb)) (k : Nat) (v : Rgb) :
    rlookup (rinsert m k v) k = some v := by
  simp [rinsert, rlookup]

lemma merge_two (m : List (Nat × Rgb)) (id : Nat) (c1 c2 : Rgb)
    (hm : rlookup m id = none) :
    rlookup (mergeColor (mergeColor m id c1) id c2) id =
      if priority c1 < priority c2 then some c2 else some c1 := by
  have h1 : mergeColor m id c1 = rinsert m id c1 := by rw [mergeColor, hm]
  rw [h1, mergeColor, rlookup_rinsert_self]
  by_cases h : priority c1 < priority c2
  · simp [h, rlookup_rinsert_self]
  · simp [h, rlookup_rinsert_self]

lemma stateColor_eq_of_priority_eq (s1 s2 : LetterState)
    (h : priority (stateColor s1) = priority (stateColor s2)) :
    stateColor s1 = stateColor s2 := by
  revert h
  cases s1 <;> cases s2 <;> decide

/-- C2: in the per-frame merge of `apply_attempt_colors`, when two
requests target the same key (here: the same character, resolving to the
same LED id, in a frame where that id is not yet bound), the request
with the strictly higher priority ordinal wins regardless of insertion
order — in particular a priority-3 (`Correct`, green) request beats a
priority-1 (`Absent`, red) request both ways — and on a priority tie the
frame output equals the later request's color (which, the per-state
colors having distinct priorities, coincides with the earlier one's). -/
theorem wordle_priority_merge :
    ∀ (ledFor : Char → Option Nat) (ch : Char) (id : Nat)
      (s1 s2 : LetterState) (m : List (Nat × Rgb)),
      ledFor ch = some id → rlookup m id = none →
      ((priority (stateColor s2) < priority (stateColor s1) →
          rlookup (apply_attempt_colors ledFor [(ch, s1), (ch, s2)] m) id
            = some (stateColor s1)
          ∧ rlookup (apply_attempt_colors ledFor [(ch, s2), (ch, s1)] m) id
            = some (stateColor s1))
        ∧ (priority (stateColor s1) = priority (stateColor s2) →
          rlookup (apply_attempt_colors ledFor [(ch, s1), (ch, s2)] m) id
            = some (stateColor s2))) := by
  intro ledFor ch id s1 s2 m hled hm
  have unfold2 : ∀ t1 t2 : LetterState,
      apply_attempt_colors ledFor [(ch, t1), (ch, t2)] m =
        mergeColor (mergeColor m id (stateColor t1)) id (stateColor t2) := by
    intro t1 t2
    simp [apply_attempt_colors, hled]
  refine ⟨fun hgt => ⟨?_, ?_⟩, fun heq => ?_⟩
  · rw [unfold2, merge_two m id _ _ hm, if_neg (by omega)]
  · rw [unfold2, merge_two m id _ _ hm, if_pos hgt]
  · rw [unfold2, merge_two m id _ _ hm, if_neg (by omega),
      stateColor_eq_of_priority_eq s1 s2 heq]

/-- Witness for C2: priorities 3 (`Correct`) vs 1 (`Absent`) on the same
key, both insertion orders. -/
theorem wordle_priority_merge_witness :
    rlookup (apply_attempt_colors (fun _ => some 0)
        [('a', .Correct), ('a', .Absent)] []) 0 = some (stateColor .Correct)
    ∧ rlookup (apply_attempt_colors (fun _ => some 0)
        [('a', .Absent), ('a', .Correct)] []) 0 = some (stateColor .Correct) :=
  (wordle_priority_merge (fun _ => some 0) 'a' 0 .Correct .Absent [] rfl rfl).1
    (by decide)

/-! ### C10: semantic-key lookup is ASCII-case-insensitive -/

lemma char_toNat_ofNat (n : Nat) (h : n.isValidChar) : (Char.ofNat n).toNat = n := by
  rw [Char.ofNat, dif_pos h]
  rfl

lemma toUpper_idem (c : Char) : Char.toUpper (Char.toUpper c) = Char.toUpper c := by
  by_cases h : c.toNat ≥ 97 ∧ c.toNat ≤ 122
  · have h1 : Char.toUpper c = Char.ofNat (c.toNat - 32) := by
      simp only [Char.toUpper]
      exact if_pos h
    have hv : (c.toNat - 32).isValidChar := Or.inl (by omega)
    rw [h1]
    simp only [Char.toUpper, char_toNat_ofNat _ hv]
    rw [if_neg (by omega)]
  · have h1 : Char.toUpper c = c := by
      simp only [Char.toUpper]
      exact if_neg h
    rw [h1, h1]

lemma mem_of_mem_trimChars (s : List Char) (x : Char) (h : x ∈ trimChars s) : x ∈ s := by
  rw [trimChars, List.mem_reverse] at h
  have h2 := (List.dropWhile_sublist (l := (s.dropWhile Char.isWhitespace).reverse)
    (p := Char.isWhitespace)).subset h
  rw [List.mem_reverse] at h2
  exact (List.dropWhile_sublist (l := s) (p := Char.isWhitespace)).subset h2

lemma splitNonAlnum_ne_nil (s : List Char) : splitNonAlnum s ≠ [] := by
  cases s with
  | nil => simp [splitNonAlnum]
  | cons c rest =>
    rw [splitNonAlnum]
    cases splitNonAlnum rest with
    | nil => simp
    | cons t ts => dsimp only; split <;> simp

lemma mem_of_mem_splitNonAlnum :
    ∀ (s : List Char) (t : List Char) (x : Char),
      t ∈ splitNonAlnum s → x ∈ t → x ∈ s := by
  intro s
  induction s with
  | nil =>
    intro t x ht hx
    simp [splitNonAlnum] at ht
    subst ht
    cases hx
  | cons c rest ih =>
    intro t x ht hx
    rw [splitNonAlnum] at ht
    cases hr : splitNonAlnum rest with
    | nil => exact absurd hr (splitNonAlnum_ne_nil rest)
    | cons t' ts =>
      rw [hr] at ht
      dsimp only at ht
      by_cases hb : isAsciiAlnum c = true
      · rw [if_pos hb] at ht
        rcases List.mem_cons.mp ht with h1 | h1
        · subst h1
          rcases List.mem_cons.mp hx with h2 | h2
          · simp [h2]
          · exact List.mem_cons_of_mem c (ih t' x (by rw [hr]; simp) h2)
        · exact List.mem_cons_of_mem c (ih t x (by rw [hr]; simp [h1]) hx)
      · rw [if_neg hb] at ht
        rcases List.mem_cons.mp ht with h1 | h1
        · subst h1; cases hx
        · exact List.mem_cons_of_mem c (ih t x (by rw [hr]; exact h1) hx)

lemma tokenChar_some (token : List Char) (ch : Char)
    (h : tokenChar token = some ch) : token = [ch] := by
  cases token with
  | nil => simp [tokenChar, utf8Len] at h
  | cons a tail =>
    cases tail with
    | nil =>
      rw [tokenChar] at h
      split at h
      · split at h
        · injection h with h
          rw [h]
        · cases h
      · cases h
    | cons b tail2 =>
      rw [tokenChar] at h
      · split at h <;> cases h
      · simp

lemma findToken_mem :
    ∀ (l : List (List Char)) (c : Char), findToken l = some c → ∃ t ∈ l, c ∈ t := by
  intro l
  induction l with
  | nil => intro c h; cases h
  | cons token rest ih =>
    intro c h
    rw [findToken] at h
    cases htc : tokenChar token with
    | some ch =>
      rw [htc] at h
      injection h with h
      exact ⟨token, by simp, by rw [tokenChar_some token ch htc, h]; simp⟩
    | none =>
      rw [htc] at h
      obtain ⟨t, ht, hc⟩ := ih c h
      exact ⟨t, by simp [ht], hc⟩

lemma mem_of_dropPrefixOpt (pre s s' : List Char) (x : Char)
    (h : dropPrefixOpt pre s = some s') (hx : x ∈ s') : x ∈ s := by
  rw [dropPrefixOpt] at h
  split at h
  · injection h with h
    subst h
    exact List.drop_subset _ _ hx
  · cases h

lemma extract_char_upper (name : List Char) (c : Char)
    (h : extract_char name = some c) : Char.toUpper c = c := by
  rw [extract_char] at h
  by_cases hsp : containsSub ("SPACE".toList) ((trimChars name).map Char.toUpper) = true
  · rw [if_pos hsp] at h
    injection h with h
    subst h
    decide
  · rw [if_neg hsp] at h
    have hval : c ∈ (trimChars name).map Char.toUpper := by
      obtain ⟨t, ht, hct⟩ := findToken_mem _ c h
      revert ht
      cases h1 : dropPrefixOpt ("KEY:".toList) ((trimChars name).map Char.toUpper) with
      | some stripped =>
        intro ht
        have hc2 := mem_of_mem_splitNonAlnum _ t c ht hct
        exact mem_of_dropPrefixOpt _ _ _ c h1 (mem_of_mem_trimChars _ c hc2)
      | none =>
        cases h2 : dropPrefixOpt ("KEY".toList) ((trimChars name).map Char.toUpper) with
        | some stripped =>
          intro ht
          have hc2 := mem_of_mem_splitNonAlnum _ t c ht hct
          exact mem_of_dropPrefixOpt _ _ _ c h2 (mem_of_mem_trimChars _ c hc2)
        | none =>
          intro ht
          exact mem_of_mem_splitNonAlnum _ t c ht hct
    obtain ⟨y, _, hy⟩ := List.mem_map.mp hval
    rw [← hy]
    exact toUpper_idem y

/-- C10: `led_for_char` is ASCII-case-insensitive — for every key map and
character, looking up a character gives the same LED index as looking up
its ASCII-uppercase form (the lookup uppercases its argument, and ASCII
uppercasing is idempotent); moreover every character `extract_char` ever
stores as a map key is fixed by ASCII uppercasing (an uppercase letter,
a digit, or the space character). -/
theorem led_for_char_case_insensitive :
    (∀ (m : List (Char × Nat)) (ch : Char),
      led_for_char m ch = led_for_char m ch.toUpper)
    ∧ (∀ (name : List Char) (c : Char),
      extract_char name = some c → Char.toUpper c = c) := by
  refine ⟨fun m ch => ?_, extract_char_upper⟩
  rw [led_for_char, led_for_char, toUpper_idem]

/-- Witness for C10 at concrete inputs. -/
theorem led_for_char_case_insensitive_witness :
    led_for_char [('A', 0)] 'a' = led_for_char [('A', 0)] ('a'.toUpper)
    ∧ (extract_char ("Key: A".toList) = some 'A' ∧ Char.toUpper 'A' = 'A') :=
  ⟨led_for_char_case_insensitive.1 [('A', 0)] 'a',
    by decide, led_for_char_case_insensitive.2 ("Key: A".toList) 'A' (by decide)⟩

/-! ### C9: `evaluate_guess` marking invariants -/

/-- Does the pair count as a Correct-or-Present hit for character `c`? -/
def hitP (c : Char) (p : Char × LetterState) : Bool :=
  p.1 == c && (p.2 == LetterState.Correct || p.2 == LetterState.Present)

/-- Does the pair count as an exact-match hit for character `c`? -/
def corrP (c : Char) (p : Char × LetterState) : Bool :=
  p.1 == c && p.2 == LetterState.Correct

lemma states1_length : ∀ (s g : List Char), (states1 s g).length = g.length := by
  intro s g
  induction g generalizing s with
  | nil => cases s <;> rfl
  | cons gc gs ih =>
    cases s with
    | nil => simp [states1, ih []]
    | cons sc ss => simp [states1, ih ss]

lemma pass2_length : ∀ (l : List (Char × LetterState)) (r : Char → Nat),
    (pass2 l r).length = l.length := by
  intro l
  induction l with
  | nil => intro r; rfl
  | cons p rest ih =>
    intro r
    obtain ⟨ch, st⟩ := p
    rw [pass2]
    by_cases h1 : st = LetterState.Correct
    · simp [h1, ih]
    · rw [if_neg h1]
      by_cases h2 : r ch > 0
      · simp [h2, ih]
      · simp [h2, ih]

lemma pass2_get_correct :
    ∀ (l : List (Char × LetterState)) (r : Char → Nat) (i : Nat),
      ((pass2 l r)[i]? = some LetterState.Correct ↔
        ∃ ch, l[i]? = some (ch, LetterState.Correct)) := by
  intro l
  induction l with
  | nil => intro r i; simp [pass2]
  | cons p rest ih =>
    intro r i
    obtain ⟨ch, st⟩ := p
    rw [pass2]
    by_cases h1 : st = LetterState.Correct
    · rw [if_pos h1]
      subst h1
      cases i with
      | zero => simp
      | succ i => simpa using ih r i
    · rw [if_neg h1]
      by_cases h2 : r ch > 0
      · rw [if_pos h2]
        cases i with
        | zero => simp [h1]
        | succ i => simpa using ih (decAt r ch) i
      · rw [if_neg h2]
        cases i with
        | zero => simp [h1]
        | succ i => simpa using ih r i

lemma states1_get :
    ∀ (s g : List Char) (i : Nat), i < s.length → i < g.length →
      ((states1 s g)[i]? = some LetterState.Correct ↔ g[i]? = s[i]?) := by
  intro s
  induction s with
  | nil => intro g i hi; exact absurd hi (by simp)
  | cons sc ss ih =>
    intro g i hi hg
    cases g with
    | nil => exact absurd hg (by simp)
    | cons gc gs =>
      rw [states1]
      cases i with
      | zero =>
        simp only [List.getElem?_cons_zero]
        by_cases h : gc = sc
        · simp [h]
        · simp [h]
      | succ i =>
        simp only [List.getElem?_cons_succ]
        exact ih gs i (by simpa using hi) (by simpa using hg)

lemma evaluate_guess_correct_iff (s g : List Char) (i : Nat)
    (h : i < min s.length g.length) :
    ((evaluate_guess s g)[i]? = some LetterState.Correct ↔ g[i]? = s[i]?) := by
  have hs : i < s.length := lt_of_lt_of_le h (min_le_left _ _)
  have hg : i < g.length := lt_of_lt_of_le h (min_le_right _ _)
  rw [evaluate_guess, pass2_get_correct]
  constructor
  · rintro ⟨ch, hch⟩
    rw [List.getElem?_zip_eq_some] at hch
    exact (states1_get s g i hs hg).mp hch.2
  · intro hgs
    have hst : (states1 s g)[i]? = some LetterState.Correct :=
      (states1_get s g i hs hg).mpr hgs
    exact ⟨g[i], List.getElem?_zip_eq_some.mpr ⟨List.getElem?_eq_getElem hg, hst⟩⟩

lemma countP_hitP_pass2 :
    ∀ (l : List (Char × LetterState)) (r : Char → Nat) (c : Char),
      ((l.map Prod.fst).zip (pass2 l r)).countP (hitP c) ≤ l.countP (hitP c) + r c := by
  intro l
  induction l with
  | nil => intro r c; simp [pass2]
  | cons p rest ih =>
    intro r c
    obtain ⟨ch, st⟩ := p
    rw [pass2]
    by_cases h1 : st = LetterState.Correct
    · rw [if_pos h1]
      subst h1
      simp only [List.map_cons, List.zip_cons_cons, List.countP_cons]
      have hIH := ih r c
      omega
    · rw [if_neg h1]
      by_cases h2 : r ch > 0
      · rw [if_pos h2]
        simp only [List.map_cons, List.zip_cons_cons, List.countP_cons]
        by_cases hc : ch = c
        · subst hc
          have hIH := ih (decAt r ch) ch
          have hdec : decAt r ch ch = r ch - 1 := by simp [decAt]
          rw [hdec] at hIH
          have hh : hitP ch (ch, LetterState.Present) = true := by simp [hitP]
          rw [hh]
          simp only [if_true]
          omega
        · have hIH := ih (decAt r ch) c
          have hdec : decAt r ch c = r c := by
            simp only [decAt]
            rw [if_neg (fun hh => hc hh.symm)]
          rw [hdec] at hIH
          have hh : hitP c (ch, LetterState.Present) = false := by simp [hitP, hc]
          have hh2 : hitP c (ch, st) = false := by simp [hitP, hc]
          rw [hh, hh2]
          simp only [Bool.false_eq_true, if_false]
          omega
      · rw [if_neg h2]
        simp only [List.map_cons, List.zip_cons_cons, List.countP_cons]
        have hIH := ih r c
        omega

lemma remaining1_nil : ∀ (s : List Char) (c : Char), remaining1 s [] c = s.count c := by
  intro s
  induction s with
  | nil => intro c; rfl
  | cons sc ss ih =>
    intro c
    rw [remaining1]
    simp only [bump]
    rw [List.count_cons, ih c]
    by_cases h : c = sc
    · subst h; simp
    · have h' : ¬ sc = c := fun hh => h hh.symm
      simp [h, h']

lemma corr_plus_remaining :
    ∀ (g s : List Char) (c : Char),
      (g.zip (states1 s g)).countP (corrP c) + remaining1 s g c = s.count c := by
  intro g
  induction g with
  | nil =>
    intro s c
    simp only [List.zip_nil_left, List.countP_nil, Nat.zero_add]
    exact remaining1_nil s c
  | cons gc gs ih =>
    intro s c
    cases s with
    | nil =>
      rw [states1]
      simp only [List.zip_cons_cons, List.countP_cons]
      have h0 : corrP c (gc, LetterState.Absent) = false := by simp [corrP]
      rw [h0]
      have hIH := ih [] c
      simp only [remaining1] at hIH ⊢
      simp only [Bool.false_eq_true, if_false, List.count_nil] at *
      omega
    | cons sc ss =>
      rw [states1, remaining1]
      by_cases h : gc = sc
      · rw [if_pos h, if_pos h]
        subst h
        simp only [List.zip_cons_cons, List.countP_cons, List.count_cons]
        have hIH := ih ss c
        by_cases hc : gc = c
        · subst hc
          simp [corrP]
          omega
        · have hc' : ¬ c = gc := fun hh => hc hh.symm
          simp [corrP, hc, hc']
          omega
      · rw [if_neg h, if_neg h]
        simp only [List.zip_cons_cons, List.countP_cons, List.count_cons]
        have h0 : corrP c (gc, LetterState.Absent) = false := by simp [corrP]
        rw [h0]
        simp only [bump]
        have hIH := ih ss c
        by_cases hc : c = sc
        · subst hc
          simp
          omega
        · have hc' : ¬ sc = c := fun hh => hc hh.symm
          simp [hc, hc']
          omega

lemma states1_no_present : ∀ (s g : List Char), LetterState.Present ∉ states1 s g := by
  intro s g
  induction g generalizing s with
  | nil => cases s <;> simp [states1]
  | cons gc gs ih =>
    cases s with
    | nil =>
      rw [states1]
      simp only [List.mem_cons, not_or]
      exact ⟨by simp, ih []⟩
    | cons sc ss =>
      rw [states1]
      simp only [List.mem_cons, not_or]
      refine ⟨?_, ih ss⟩
      split <;> simp

lemma countP_hit_eq_corr (s g : List Char) (c : Char) :
    (g.zip (states1 s g)).countP (hitP c) = (g.zip (states1 s g)).countP (corrP c) := by
  apply List.countP_congr
  intro p hp
  obtain ⟨ch, st⟩ := p
  have hst : st ∈ states1 s g := (List.of_mem_zip hp).2
  have hne : st ≠ LetterState.Present := fun hh => states1_no_present s g (hh ▸ hst)
  simp [hitP, corrP, hne]

/-- C9: for every secret and guess, `evaluate_guess` returns one state
per guess character; a position within the common prefix length is
marked `Correct` exactly when the guess and secret characters there are
equal; and for every character `c`, the number of positions marked
`Correct` or `Present` whose guess character is `c` never exceeds the
number of occurrences of `c` in the secret. -/
theorem evaluate_guess_spec :
    ∀ (secret guess : List Char),
      (evaluate_guess secret guess).length = guess.length
      ∧ (∀ i, i < min secret.length guess.length →
          ((evaluate_guess secret guess)[i]? = some LetterState.Correct ↔
            guess[i]? = secret[i]?))
      ∧ (∀ c : Char,
          (guess.zip (evaluate_guess secret guess)).countP (hitP c) ≤
            secret.count c) := by
  intro s g
  refine ⟨?_, fun i hi => evaluate_guess_correct_iff s g i hi, fun c => ?_⟩
  · rw [evaluate_guess, pass2_length, List.length_zip, states1_length]
    simp
  · have hmap : (g.zip (states1 s g)).map Prod.fst = g :=
      List.map_fst_zip _ _ (by rw [states1_length])
    calc (g.zip (evaluate_guess s g)).countP (hitP c)
        = (((g.zip (states1 s g)).map Prod.fst).zip
            (pass2 (g.zip (states1 s g)) (remaining1 s g))).countP (hitP c) := by
          rw [hmap, evaluate_guess]
      _ ≤ (g.zip (states1 s g)).countP (hitP c) + remaining1 s g c :=
          countP_hitP_pass2 _ _ c
      _ = (g.zip (states1 s g)).countP (corrP c) + remaining1 s g c := by
          rw [countP_hit_eq_corr]
      _ = s.count c := corr_plus_remaining g s c

/-- Witness for C9 at a concrete secret and guess. -/
theorem evaluate_guess_spec_witness :
    ((evaluate_guess ("crane".toList) ("caret".toList))[0]? = some LetterState.Correct ↔
      ("caret".toList)[0]? = ("crane".toList)[0]?) :=
  (evaluate_guess_spec ("crane".toList) ("caret".toList)).2.1 0 (by decide)
end ICueKb
